import Mathlib

/-!
Shallow embedding of the ASL recognizer's model-selection and recognition code
(`my_model_selectors.py` and `my_recognizer.py`) and proofs about it.

Conventions of the embedding:
* Log-likelihood values are modelled as rationals; the floating-point
  `np.log` is an oracle field of the selector environment.
* The external `hmmlearn` capability (`GaussianHMM(...).fit`, `model.score`)
  is modelled by oracle functions returning `Option`: `none` means the call
  raised, and the surrounding `try`/`except` then skips the candidate or
  returns `None`.
* The BIC/CV selectors call `GaussianHMM` without `random_state`, so every
  `.fit` call consumes the ambient NumPy RNG stream; distinct `.fit` call
  sites are therefore modelled as distinct oracle fields (two calls with equal
  arguments need not agree, e.g. the final refit may fail although the sweep
  fit of the same order succeeded).
* A Python function that can let an exception escape is embedded with result
  type `Except String _`; a function that cannot raise is wrapped in `.ok`.
-/

/-- One observation frame (feature vector) of an observation sequence. -/
abbrev Frame := List ℚ

/-- Keyword arguments of a `GaussianHMM` constructor call.  The field defaults
are the `hmmlearn` library defaults: `covariance_type="diag"`, `n_iter=10`,
`random_state=None`. -/
structure HMMConfig where
  n_components : ℕ
  covariance_type : String := "diag"
  n_iter : ℕ := 10
  random_state : Option ℕ := none
  deriving Repr, DecidableEq

/-- Constructor call of `ModelSelector.base_model` (`my_model_selectors.py`
line 39): `GaussianHMM(n_components=num_states, covariance_type="diag",
n_iter=1000, random_state=self.random_state, verbose=False)`. -/
def baseModelConfig (random_state num_states : ℕ) : HMMConfig :=
  { n_components := num_states, covariance_type := "diag", n_iter := 1000,
    random_state := some random_state }

/-- Constructor call in the `SelectorBIC.select` sweep (line 86):
`GaussianHMM(n_components=n, n_iter=1000)`. -/
def bicSweepFitConfig (n : ℕ) : HMMConfig :=
  { n_components := n, n_iter := 1000 }

/-- Constructor call of the final refit in `SelectorBIC.select` (line 96):
`GaussianHMM(n_components=best_n, n_iter=1000)`. -/
def bicFinalFitConfig (best_n : ℕ) : HMMConfig :=
  { n_components := best_n, n_iter := 1000 }

/-- Constructor call in the `SelectorCV.select` fold loop (line 158):
`GaussianHMM(n_components=i, n_iter=1000)`. -/
def cvSweepFitConfig (i : ℕ) : HMMConfig :=
  { n_components := i, n_iter := 1000 }

/-- Constructor call of the final refit in `SelectorCV.select` (line 171):
`GaussianHMM(n_components=best_n, n_iter=1000)`. -/
def cvFinalFitConfig (best_n : ℕ) : HMMConfig :=
  { n_components := best_n, n_iter := 1000 }

/-- Per-class state of a `ModelSelector` instance together with oracles for
the external `hmmlearn` capability.  `M` is the abstract type of fitted
models.  The fields `words`, `hwords`, `this_word` and `verbose` of the Python
class are omitted: they feed only `print` calls and the unimplemented DIC
selector.  Numeric defaults are the `ModelSelector.__init__` defaults. -/
structure Selector (M : Type) where
  sequences : List (List Frame)
  X : List Frame
  lengths : List ℕ
  n_constant : ℕ := 3
  min_n_components : ℕ := 2
  max_n_components : ℕ := 10
  random_state : ℕ := 14
  fitBase : HMMConfig → List Frame → List ℕ → Option M
  fitBicSweep : HMMConfig → List Frame → List ℕ → Option M
  fitBicFinal : HMMConfig → List Frame → List ℕ → Option M
  fitCvSweep : HMMConfig → List Frame → List ℕ → Option M
  fitCvFinal : HMMConfig → List Frame → List ℕ → Option M
  score : M → List Frame → List ℕ → Option ℚ
  log : ℕ → ℚ

variable {M : Type}

/-- Python `<` on the two-element lists `[criterion, n]` built by the BIC and
CV sweeps: lexicographic comparison, first on the criterion value, then on the
candidate order. -/
def lexLt (p q : ℚ × ℕ) : Prop :=
  p.1 < q.1 ∨ (p.1 = q.1 ∧ p.2 < q.2)

instance (p q : ℚ × ℕ) : Decidable (lexLt p q) := by
  unfold lexLt; exact inferInstance

/-- Python `min` over a list of `[criterion, n]` pairs.  CPython keeps the
first element and replaces it whenever a later element compares strictly
below it; on the empty list it raises `ValueError`, modelled as `none` (the
call sites wrap it in `try`/`except`). -/
def pyMin : List (ℚ × ℕ) → Option (ℚ × ℕ)
  | [] => none
  | x :: xs => some (xs.foldl (fun m y => if lexLt y m then y else m) x)

/-- Python `max` over a list of `[criterion, n]` pairs, analogous to `pyMin`:
a later element replaces the current one only when it compares strictly above
it. -/
def pyMax : List (ℚ × ℕ) → Option (ℚ × ℕ)
  | [] => none
  | x :: xs => some (xs.foldl (fun m y => if lexLt m y then y else m) x)

/-- `ModelSelector.base_model`: one guarded fit of
`GaussianHMM(num_states, "diag", 1000, self.random_state)` on the class's full
training set; the `try`/`except` returns `None` on failure. -/
def base_model (s : Selector M) (num_states : ℕ) : Option M :=
  s.fitBase (baseModelConfig s.random_state num_states) s.X s.lengths

/-- `SelectorConstant.select`: always fit the single order `n_constant`. -/
def SelectorConstant.select (s : Selector M) : Except String (Option M) :=
  .ok (base_model s s.n_constant)

/-- Candidate orders visited by the BIC and CV sweeps:
`range(self.min_n_components, self.max_n_components + 1)`. -/
def selectorRange (s : Selector M) : List ℕ :=
  List.range' s.min_n_components (s.max_n_components + 1 - s.min_n_components)

/-- Body of the `SelectorBIC.select` sweep for order `n`: fit on the full
training set, score the same set, and record
`[-2*logL + n*log(len(self.lengths)), n]`; `none` when the `try` body
raised. -/
def bicCandidate (s : Selector M) (n : ℕ) : Option (ℚ × ℕ) :=
  match s.fitBicSweep (bicSweepFitConfig n) s.X s.lengths with
  | none => none
  | some model =>
    match s.score model s.X s.lengths with
    | none => none
    | some logL => some (-2 * logL + (n : ℚ) * s.log s.lengths.length, n)

/-- The list `BIC_n_components` built by `SelectorBIC.select`. -/
def bicSweep (s : Selector M) : List (ℚ × ℕ) :=
  (selectorRange s).filterMap (bicCandidate s)

/-- Final phase of `SelectorBIC.select`: `best_n = min(BIC_n_components)[1]`
followed by a refit of `best_n` on the full training set; any failure in this
`try` block (empty list or failed refit) returns `None`. -/
def bicChoose (s : Selector M) (swept : List (ℚ × ℕ)) : Option M :=
  match pyMin swept with
  | none => none
  | some best => s.fitBicFinal (bicFinalFitConfig best.2) s.X s.lengths

/-- `SelectorBIC.select`.  Every fallible step is inside a `try`/`except`, so
no exception escapes. -/
def SelectorBIC.select (s : Selector M) : Except String (Option M) :=
  .ok (bicChoose s (bicSweep s))

/-- `SelectorDIC.select` is `raise NotImplementedError` (line 117). -/
def SelectorDIC.select (_s : Selector M) : Except String (Option M) :=
  .error "NotImplementedError"

/-- Train/test index pairs produced by `KFold(n_splits).split(sequences)`
with the default `shuffle=False`: test folds are consecutive index blocks, the
first `n_samples % n_splits` of size `n_samples / n_splits + 1`, the rest of
size `n_samples / n_splits`; train indices are the ascending complement. -/
def cvFolds (nSamples nSplits : ℕ) : List (List ℕ × List ℕ) :=
  (List.range nSplits).map (fun j =>
    let base := nSamples / nSplits
    let rem := nSamples % nSplits
    let start := j * base + min j rem
    let stop := start + base + (if j < rem then 1 else 0)
    ((List.range nSamples).filter (fun idx => decide (idx < start ∨ stop ≤ idx)),
     (List.range nSamples).filter (fun idx => decide (start ≤ idx ∧ idx < stop))))

/-- Assembly of `X_train, lengths_train` (resp. test) from a list of fold
indices: concatenate the indexed sequences and append each one's length, in
index order. -/
def buildSplitSet (seqs : List (List Frame)) (idxs : List ℕ) :
    List Frame × List ℕ :=
  idxs.foldl (fun acc idx =>
    (acc.1 ++ seqs.getD idx [], acc.2 ++ [(seqs.getD idx []).length])) ([], [])

/-- The list `logL_cv` built for candidate order `i` in `SelectorCV.select`:
one guarded fit/score per fold, failures skipped. -/
def cvCandidateScores (s : Selector M) (folds : List (List ℕ × List ℕ))
    (i : ℕ) : List ℚ :=
  folds.foldl (fun logL_cv fold =>
    let train := buildSplitSet s.sequences fold.1
    let test := buildSplitSet s.sequences fold.2
    match s.fitCvSweep (cvSweepFitConfig i) train.1 train.2 with
    | none => logL_cv
    | some model =>
      match s.score model test.1 test.2 with
      | none => logL_cv
      | some logL => logL_cv ++ [logL]) []

/-- `np.mean` of a list of rationals. -/
def npMean (l : List ℚ) : ℚ := l.sum / (l.length : ℚ)

/-- The list `logL_n_components` built by `SelectorCV.select`: for each
candidate order with at least one surviving fold score, the pair
`[np.mean(logL_cv), i]`. -/
def cvSweep (s : Selector M) : List (ℚ × ℕ) :=
  let folds := cvFolds s.sequences.length (min s.lengths.length 4)
  (selectorRange s).filterMap (fun i =>
    let logL_cv := cvCandidateScores s folds i
    if logL_cv.isEmpty then none else some (npMean logL_cv, i))

/-- `SelectorCV.select`.  Two statements sit outside every `try` and can
raise: `KFold(n_splits=min(len(self.lengths), 4))` raises `ValueError` when
`n_splits < 2`, and `split_method.split(word_sequences)` (executed only when
the candidate range is nonempty) raises `ValueError` when `n_splits` exceeds
the number of sequences.  Otherwise the selection mirrors BIC with `max` in
place of `min`. -/
def SelectorCV.select (s : Selector M) : Except String (Option M) :=
  let n_splits := min s.lengths.length 4
  if n_splits < 2 then
    .error "ValueError"
  else if s.min_n_components ≤ s.max_n_components ∧ s.sequences.length < n_splits then
    .error "ValueError"
  else
    .ok (match pyMax (cvSweep s) with
         | none => none
         | some best => s.fitCvFinal (cvFinalFitConfig best.2) s.X s.lengths)

/-- Body of the inner loop of `recognize` (`my_recognizer.py` lines 37-51) for
one `(word, model)` item.  The accumulator carries `(max_logL, word_dict,
best_guess)`; a raised `model.score` records `None` under the word and leaves
the maximum and the guess unchanged. -/
def recognizeStep (score : M → List Frame → List ℕ → Option ℚ)
    (X : List Frame) (lengths : List ℕ)
    (acc : ℚ × List (String × Option ℚ) × String) (wm : String × M) :
    ℚ × List (String × Option ℚ) × String :=
  match score wm.2 X lengths with
  | some logL =>
    if acc.1 < logL then (logL, acc.2.1 ++ [(wm.1, some logL)], wm.1)
    else (acc.1, acc.2.1 ++ [(wm.1, some logL)], acc.2.2)
  | none => (acc.1, acc.2.1 ++ [(wm.1, none)], acc.2.2)

/-- One iteration of the outer loop of `recognize` for a single test instance:
`max_logL` starts at `-10 ** 10`, `word_dict` empty, `best_guess` the empty
string; returns the instance's score map and its best guess. -/
def recognizeOne (score : M → List Frame → List ℕ → Option ℚ)
    (models : List (String × M)) (X : List Frame) (lengths : List ℕ) :
    List (String × Option ℚ) × String :=
  let r := models.foldl (recognizeStep score X lengths) (-10000000000, ([], ""))
  (r.2.1, r.2.2)

/-- `recognize`: iterate the test set in index order, appending each
instance's score map to `probabilities` and its best guess to `guesses`. -/
def recognize (score : M → List Frame → List ℕ → Option ℚ)
    (models : List (String × M)) (test_set : List (List Frame × List ℕ)) :
    List (List (String × Option ℚ)) × List String :=
  test_set.foldl (fun acc t =>
    let r := recognizeOne score models t.1 t.2
    (acc.1 ++ [r.1], acc.2 ++ [r.2])) ([], [])

/-- Score map an instance ends up with: one entry per `(word, model)` item of
`models`, in iteration order, `none` marking a failed scoring call. -/
def scoreMap (score : M → List Frame → List ℕ → Option ℚ)
    (models : List (String × M)) (X : List Frame) (lengths : List ℕ) :
    List (String × Option ℚ) :=
  models.map (fun wm => (wm.1, score wm.2 X lengths))

/-- Numeric (scorable) entries of a score map, in order. -/
def numericEntries (entries : List (String × Option ℚ)) : List (String × ℚ) :=
  entries.filterMap (fun e =>
    match e.2 with
    | some v => some (e.1, v)
    | none => none)

/-- Arg-max fold over the numeric entries alone, with the recognizer's
sentinel start value `-10000000000` and empty initial label. -/
def argmaxFold (l : List (String × ℚ)) : ℚ × String :=
  l.foldl (fun acc e => if acc.1 < e.2 then (e.2, e.1) else acc) (-10000000000, "")

/-- Modelled from the spec: one step of the best-guess computation of
spec §4.6, which starts the running maximum at negative infinity (modelled as
`none`) and keeps the first label attaining the maximum among scorable
entries. -/
def specStep (acc : Option (ℚ × String)) (e : String × Option ℚ) :
    Option (ℚ × String) :=
  match e.2 with
  | none => acc
  | some v =>
    match acc with
    | none => some (v, e.1)
    | some p => if p.1 < v then some (v, e.1) else some p

/-- Modelled from the spec: the running maximum and its label over a whole
score map, starting from negative infinity. -/
def specBest (entries : List (String × Option ℚ)) : Option (ℚ × String) :=
  entries.foldl specStep none

/-- Modelled from the spec: "the class with the maximum score among scorable
entries for that instance", ties to the first-seen label, empty string when no
entry is scorable. -/
def specBestGuess (entries : List (String × Option ℚ)) : String :=
  match specBest entries with
  | none => ""
  | some p => p.2

/-- Coupling invariant between the recognizer's fold state (running maximum,
score map, best guess) and the spec's best-guess fold state (`none` meaning
the running maximum is still negative infinity). -/
def specInv (c : ℚ × List (String × Option ℚ) × String)
    (o : Option (ℚ × String)) : Prop :=
  (c.1 = (-10000000000 : ℚ) ∧ c.2.2 = "" ∧
    ∀ p : ℚ × String, o = some p → p.1 ≤ (-10000000000 : ℚ))
  ∨ (∃ p : ℚ × String, o = some p ∧ (-10000000000 : ℚ) < p.1 ∧
      c.1 = p.1 ∧ c.2.2 = p.2)

/-- CV selector instance with two training sequences and candidate orders 2
and 3; every fold fit succeeds (the fitted model is the order itself, with
`M = ℕ`) and every scoring call returns 0, so the two candidates tie at the
exact maximum mean; the final refit also returns its order. -/
def cvTieSel : Selector ℕ :=
  { sequences := [[[1]], [[2]]]
    X := [[1], [2]]
    lengths := [1, 1]
    min_n_components := 2
    max_n_components := 3
    fitBase := fun _ _ _ => none
    fitBicSweep := fun _ _ _ => none
    fitBicFinal := fun _ _ _ => none
    fitCvSweep := fun cfg _ _ => some cfg.n_components
    fitCvFinal := fun cfg _ _ => some cfg.n_components
    score := fun _ _ _ => some 0
    log := fun _ => 0 }

/-- Selector instance for a class with a single training sequence (of three
frames); all oracles fail. -/
def cvOneSeqSel : Selector ℕ :=
  { sequences := [[[1], [2], [3]]]
    X := [[1], [2], [3]]
    lengths := [3]
    fitBase := fun _ _ _ => none
    fitBicSweep := fun _ _ _ => none
    fitBicFinal := fun _ _ _ => none
    fitCvSweep := fun _ _ _ => none
    fitCvFinal := fun _ _ _ => none
    score := fun _ _ _ => none
    log := fun _ => 0 }

/-- Selector instance with two training sequences whose oracles all fail:
the CV sweep records nothing and the selection falls through to `None`. -/
def cvOkSel : Selector ℕ :=
  { sequences := [[[1]], [[2]]]
    X := [[1], [2]]
    lengths := [1, 1]
    fitBase := fun _ _ _ => none
    fitBicSweep := fun _ _ _ => none
    fitBicFinal := fun _ _ _ => none
    fitCvSweep := fun _ _ _ => none
    fitCvFinal := fun _ _ _ => none
    score := fun _ _ _ => none
    log := fun _ => 0 }

/-- BIC selector instance over a class with 2 sequences totalling 5 frames
(so the sequence count and the frame count differ), a single candidate order
2, fits returning the order itself, scores returning minus the order, and the
oracle logarithm being the identity. -/
def bicWSel : Selector ℕ :=
  { sequences := [[[1], [1], [1]], [[2], [2]]]
    X := [[1], [1], [1], [2], [2]]
    lengths := [3, 2]
    min_n_components := 2
    max_n_components := 2
    fitBase := fun _ _ _ => none
    fitBicSweep := fun cfg _ _ => some cfg.n_components
    fitBicFinal := fun cfg _ _ => some cfg.n_components
    fitCvSweep := fun _ _ _ => none
    fitCvFinal := fun _ _ _ => none
    score := fun m _ _ => some (-(m : ℚ))
    log := fun k => (k : ℚ) }

/-- BIC selector instance with two recorded candidates (orders 2 and 3,
criterion values 8 and 12), used to exercise permutation invariance. -/
def bicPermSel : Selector ℕ :=
  { sequences := [[[1], [1], [1]], [[2], [2]]]
    X := [[1], [1], [1], [2], [2]]
    lengths := [3, 2]
    min_n_components := 2
    max_n_components := 3
    fitBase := fun _ _ _ => none
    fitBicSweep := fun cfg _ _ => some cfg.n_components
    fitBicFinal := fun cfg _ _ => some cfg.n_components
    fitCvSweep := fun _ _ _ => none
    fitCvFinal := fun _ _ _ => none
    score := fun m _ _ => some (-(m : ℚ))
    log := fun k => (k : ℚ) }

/-- Selector instance whose sweep fits succeed but whose final refits always
fail, for both the BIC and the CV strategy. -/
def refitFailSel : Selector ℕ :=
  { sequences := [[[1]], [[2]]]
    X := [[1], [2]]
    lengths := [1, 1]
    min_n_components := 2
    max_n_components := 2
    fitBase := fun _ _ _ => none
    fitBicSweep := fun cfg _ _ => some cfg.n_components
    fitBicFinal := fun _ _ _ => none
    fitCvSweep := fun cfg _ _ => some cfg.n_components
    fitCvFinal := fun _ _ _ => none
    score := fun _ _ _ => some 1
    log := fun _ => 0 }

/-- Scoring oracle whose every call returns a value strictly below the
recognizer's sentinel `-10 ** 10`. -/
def recScoreLow : ℕ → List Frame → List ℕ → Option ℚ :=
  fun _ _ _ => some (-10000000001)

/-- Scoring oracle returning exactly the recognizer's sentinel `-10 ** 10`
for every model. -/
def recScoreSentinel : ℕ → List Frame → List ℕ → Option ℚ :=
  fun _ _ _ => some (-10000000000)

/-- Scoring oracle mapping model `m` to log-likelihood `m + 1`. -/
def recScoreAsc : ℕ → List Frame → List ℕ → Option ℚ :=
  fun m _ _ => some ((m : ℚ) + 1)

/-- Scoring oracle mapping model `m` to log-likelihood `m`. -/
def recScoreId : ℕ → List Frame → List ℕ → Option ℚ :=
  fun m _ _ => some (m : ℚ)

/-- Scoring oracle that fails on model 0 and scores 5 on every other model. -/
def recScoreMixed : ℕ → List Frame → List ℕ → Option ℚ :=
  fun m _ _ => if m = 0 then none else some 5

theorem lexLt_irrefl (p : ℚ × ℕ) : ¬ lexLt p p := by
  rintro (h | ⟨-, h⟩) <;> exact lt_irrefl _ h

theorem lexLt_trans {p q r : ℚ × ℕ} (h1 : lexLt p q) (h2 : lexLt q r) :
    lexLt p r := by
  rcases h1 with h1 | ⟨e1, h1⟩ <;> rcases h2 with h2 | ⟨e2, h2⟩
  · exact Or.inl (h1.trans h2)
  · exact Or.inl (by rw [← e2]; exact h1)
  · exact Or.inl (by rw [e1]; exact h2)
  · exact Or.inr ⟨e1.trans e2, h1.trans h2⟩

theorem lexLt_asymm {p q : ℚ × ℕ} (h : lexLt p q) : ¬ lexLt q p :=
  fun h2 => lexLt_irrefl p (lexLt_trans h h2)

theorem lexLt_total (p q : ℚ × ℕ) : lexLt p q ∨ p = q ∨ lexLt q p := by
  rcases lt_trichotomy p.1 q.1 with h | h | h
  · exact Or.inl (Or.inl h)
  · rcases lt_trichotomy p.2 q.2 with h2 | h2 | h2
    · exact Or.inl (Or.inr ⟨h, h2⟩)
    · exact Or.inr (Or.inl (Prod.ext_iff.mpr ⟨h, h2⟩))
    · exact Or.inr (Or.inr (Or.inr ⟨h.symm, h2⟩))
  · exact Or.inr (Or.inr (Or.inl h))

theorem lexLt_notLt_trans {x b r : ℚ × ℕ} (h1 : ¬ lexLt b r) (h2 : ¬ lexLt x b) :
    ¬ lexLt x r := by
  intro hxr
  rcases lexLt_total b r with h | h | h
  · exact h1 h
  · exact h2 (by rw [h]; exact hxr)
  · exact h2 (lexLt_trans hxr h)

theorem pyMinStep_notLt_left (x y : ℚ × ℕ) :
    ¬ lexLt x (if lexLt y x then y else x) := by
  by_cases h : lexLt y x
  · simp only [if_pos h]; exact lexLt_asymm h
  · simp only [if_neg h]; exact lexLt_irrefl x

theorem pyMinStep_notLt_right (x y : ℚ × ℕ) :
    ¬ lexLt y (if lexLt y x then y else x) := by
  by_cases h : lexLt y x
  · simp only [if_pos h]; exact lexLt_irrefl y
  · simp only [if_neg h]; exact h

theorem pyMinFold_mem : ∀ (xs : List (ℚ × ℕ)) (x : ℚ × ℕ),
    xs.foldl (fun m y => if lexLt y m then y else m) x ∈ x :: xs := by
  intro xs
  induction xs with
  | nil => intro x; simp
  | cons y ys ih =>
    intro x
    have h := ih (if lexLt y x then y else x)
    rw [List.foldl_cons]
    rcases List.mem_cons.mp h with h | h
    · rw [h]
      by_cases hc : lexLt y x
      · simp [hc]
      · simp [hc]
    · simp [h]

theorem pyMinFold_notLt : ∀ (xs : List (ℚ × ℕ)) (x q : ℚ × ℕ), q ∈ x :: xs →
    ¬ lexLt q (xs.foldl (fun m y => if lexLt y m then y else m) x) := by
  intro xs
  induction xs with
  | nil =>
    intro x q hq
    rcases List.mem_cons.mp hq with hq | hq
    · rw [hq]; exact lexLt_irrefl x
    · simp at hq
  | cons y ys ih =>
    intro x q hq
    rw [List.foldl_cons]
    have hacc := ih (if lexLt y x then y else x) (if lexLt y x then y else x)
      (List.mem_cons_self _ _)
    rcases List.mem_cons.mp hq with hq | hq
    · rw [hq]; exact lexLt_notLt_trans hacc (pyMinStep_notLt_left x y)
    · rcases List.mem_cons.mp hq with hq | hq
      · rw [hq]; exact lexLt_notLt_trans hacc (pyMinStep_notLt_right x y)
      · exact ih _ q (List.mem_cons_of_mem _ hq)

theorem pyMin_mem {l : List (ℚ × ℕ)} {p : ℚ × ℕ} (h : pyMin l = some p) :
    p ∈ l := by
  cases l with
  | nil => simp [pyMin] at h
  | cons x xs =>
    simp only [pyMin, Option.some.injEq] at h
    rw [← h]; exact pyMinFold_mem xs x

theorem pyMin_notLt {l : List (ℚ × ℕ)} {p : ℚ × ℕ} (h : pyMin l = some p) :
    ∀ q ∈ l, ¬ lexLt q p := by
  cases l with
  | nil => simp [pyMin] at h
  | cons x xs =>
    simp only [pyMin, Option.some.injEq] at h
    intro q hq
    rw [← h]; exact pyMinFold_notLt xs x q hq

theorem pyMin_isSome {l : List (ℚ × ℕ)} (h : l ≠ []) :
    ∃ p, pyMin l = some p := by
  cases l with
  | nil => exact absurd rfl h
  | cons x xs => exact ⟨_, rfl⟩

theorem pyMin_perm {l l' : List (ℚ × ℕ)} (h : l.Perm l') :
    pyMin l = pyMin l' := by
  cases l with
  | nil =>
    have : l' = [] := h.symm.eq_nil
    rw [this]
  | cons x xs =>
    have hne' : l' ≠ [] := by
      intro he
      have := h.length_eq
      rw [he] at this
      simp at this
    obtain ⟨p, hp⟩ := pyMin_isSome (l := x :: xs) (by simp)
    obtain ⟨p', hp'⟩ := pyMin_isSome hne'
    have hmem : p ∈ l' := h.subset (pyMin_mem hp)
    have hmem' : p' ∈ x :: xs := h.symm.subset (pyMin_mem hp')
    have h1 : ¬ lexLt p p' := pyMin_notLt hp' p hmem
    have h2 : ¬ lexLt p' p := pyMin_notLt hp p' hmem'
    rcases lexLt_total p p' with hc | hc | hc
    · exact absurd hc h1
    · rw [hp, hp', hc]
    · exact absurd hc h2

theorem pyMaxStep_notLt_left (x y : ℚ × ℕ) :
    ¬ lexLt (if lexLt x y then y else x) x := by
  by_cases h : lexLt x y
  · simp only [if_pos h]; exact lexLt_asymm h
  · simp only [if_neg h]; exact lexLt_irrefl x

theorem pyMaxStep_notLt_right (x y : ℚ × ℕ) :
    ¬ lexLt (if lexLt x y then y else x) y := by
  by_cases h : lexLt x y
  · simp only [if_pos h]; exact lexLt_irrefl y
  · simp only [if_neg h]; exact h

theorem pyMaxFold_mem : ∀ (xs : List (ℚ × ℕ)) (x : ℚ × ℕ),
    xs.foldl (fun m y => if lexLt m y then y else m) x ∈ x :: xs := by
  intro xs
  induction xs with
  | nil => intro x; simp
  | cons y ys ih =>
    intro x
    have h := ih (if lexLt x y then y else x)
    rw [List.foldl_cons]
    rcases List.mem_cons.mp h with h | h
    · rw [h]
      by_cases hc : lexLt x y
      · simp [hc]
      · simp [hc]
    · simp [h]

theorem pyMaxFold_notLt : ∀ (xs : List (ℚ × ℕ)) (x q : ℚ × ℕ), q ∈ x :: xs →
    ¬ lexLt (xs.foldl (fun m y => if lexLt m y then y else m) x) q := by
  intro xs
  induction xs with
  | nil =>
    intro x q hq
    rcases List.mem_cons.mp hq with hq | hq
    · rw [hq]; exact lexLt_irrefl x
    · simp at hq
  | cons y ys ih =>
    intro x q hq
    rw [List.foldl_cons]
    have hacc := ih (if lexLt x y then y else x) (if lexLt x y then y else x)
      (List.mem_cons_self _ _)
    rcases List.mem_cons.mp hq with hq | hq
    · rw [hq]; exact lexLt_notLt_trans (pyMaxStep_notLt_left x y) hacc
    · rcases List.mem_cons.mp hq with hq | hq
      · rw [hq]; exact lexLt_notLt_trans (pyMaxStep_notLt_right x y) hacc
      · exact ih _ q (List.mem_cons_of_mem _ hq)

theorem pyMax_mem {l : List (ℚ × ℕ)} {p : ℚ × ℕ} (h : pyMax l = some p) :
    p ∈ l := by
  cases l with
  | nil => simp [pyMax] at h
  | cons x xs =>
    simp only [pyMax, Option.some.injEq] at h
    rw [← h]; exact pyMaxFold_mem xs x

theorem pyMax_notLt {l : List (ℚ × ℕ)} {p : ℚ × ℕ} (h : pyMax l = some p) :
    ∀ q ∈ l, ¬ lexLt p q := by
  cases l with
  | nil => simp [pyMax] at h
  | cons x xs =>
    simp only [pyMax, Option.some.injEq] at h
    intro q hq
    rw [← h]; exact pyMaxFold_notLt xs x q hq

theorem pyMax_isSome {l : List (ℚ × ℕ)} (h : l ≠ []) :
    ∃ p, pyMax l = some p := by
  cases l with
  | nil => exact absurd rfl h
  | cons x xs => exact ⟨_, rfl⟩

theorem recognizeFold_dict (score : M → List Frame → List ℕ → Option ℚ)
    (X : List Frame) (lengths : List ℕ) :
    ∀ (models : List (String × M)) (c : ℚ × List (String × Option ℚ) × String),
    (models.foldl (recognizeStep score X lengths) c).2.1
      = c.2.1 ++ scoreMap score models X lengths := by
  intro models
  induction models with
  | nil => intro c; simp [scoreMap]
  | cons wm ms ih =>
    intro c
    rw [List.foldl_cons, ih]
    simp only [scoreMap, List.map_cons]
    cases h : score wm.2 X lengths with
    | none => simp [recognizeStep, h]
    | some v =>
      by_cases hc : c.1 < v
      · simp [recognizeStep, h, hc]
      · simp [recognizeStep, h, hc]

theorem recognizeFold_argmax (score : M → List Frame → List ℕ → Option ℚ)
    (X : List Frame) (lengths : List ℕ) :
    ∀ (models : List (String × M)) (a : ℚ) (d : List (String × Option ℚ))
      (b : String),
    ((models.foldl (recognizeStep score X lengths) (a, d, b)).1,
     (models.foldl (recognizeStep score X lengths) (a, d, b)).2.2)
      = (numericEntries (scoreMap score models X lengths)).foldl
          (fun acc e => if acc.1 < e.2 then (e.2, e.1) else acc) (a, b) := by
  intro models
  induction models with
  | nil => intro a d b; simp [scoreMap, numericEntries]
  | cons wm ms ih =>
    intro a d b
    rw [List.foldl_cons]
    cases h : score wm.2 X lengths with
    | none =>
      simp only [recognizeStep, h]
      rw [ih]
      simp [scoreMap, numericEntries, h]
    | some v =>
      by_cases hc : a < v
      · simp only [recognizeStep, h, if_pos hc]
        rw [ih]
        simp [scoreMap, numericEntries, h, hc]
      · simp only [recognizeStep, h, if_neg hc]
        rw [ih]
        simp [scoreMap, numericEntries, h, hc]

theorem specInv_step (score : M → List Frame → List ℕ → Option ℚ)
    (X : List Frame) (lengths : List ℕ)
    (c : ℚ × List (String × Option ℚ) × String) (o : Option (ℚ × String))
    (wm : String × M) (h : specInv c o) :
    specInv (recognizeStep score X lengths c wm)
      (specStep o (wm.1, score wm.2 X lengths)) := by
  cases hs : score wm.2 X lengths with
  | none =>
    simp only [recognizeStep, hs, specStep]
    rcases h with ⟨h1, h2, h3⟩ | ⟨p, hp, h1, h2, h3⟩
    · exact Or.inl ⟨h1, h2, h3⟩
    · exact Or.inr ⟨p, hp, h1, h2, h3⟩
  | some v =>
    rcases h with ⟨h1, h2, h3⟩ | ⟨p, hp, hgt, h1, h2⟩
    · cases o with
      | none =>
        by_cases hv : (-10000000000 : ℚ) < v
        · have hcv : c.1 < v := by rw [h1]; exact hv
          simp only [recognizeStep, hs, if_pos hcv, specStep]
          exact Or.inr ⟨(v, wm.1), rfl, hv, rfl, rfl⟩
        · have hcv : ¬ c.1 < v := by rw [h1]; exact hv
          simp only [recognizeStep, hs, if_neg hcv, specStep]
          refine Or.inl ⟨h1, h2, ?_⟩
          intro p hp
          cases hp
          exact le_of_not_lt hv
      | some q =>
        have hq : q.1 ≤ (-10000000000 : ℚ) := h3 q rfl
        by_cases hv : (-10000000000 : ℚ) < v
        · have hcv : c.1 < v := by rw [h1]; exact hv
          have hqv : q.1 < v := lt_of_le_of_lt hq hv
          simp only [recognizeStep, hs, if_pos hcv, specStep, if_pos hqv]
          exact Or.inr ⟨(v, wm.1), rfl, hv, rfl, rfl⟩
        · have hcv : ¬ c.1 < v := by rw [h1]; exact hv
          simp only [recognizeStep, hs, if_neg hcv, specStep]
          by_cases hqv : q.1 < v
          · simp only [if_pos hqv]
            refine Or.inl ⟨h1, h2, ?_⟩
            intro p hp
            cases hp
            exact le_of_not_lt hv
          · simp only [if_neg hqv]
            exact Or.inl ⟨h1, h2, fun p hp => by cases hp; exact hq⟩
    · cases hp
      by_cases hpv : p.1 < v
      · have hcv : c.1 < v := by rw [h1]; exact hpv
        simp only [recognizeStep, hs, if_pos hcv, specStep, if_pos hpv]
        exact Or.inr ⟨(v, wm.1), rfl, lt_trans hgt hpv, rfl, rfl⟩
      · have hcv : ¬ c.1 < v := by rw [h1]; exact hpv
        simp only [recognizeStep, hs, if_neg hcv, specStep, if_neg hpv]
        exact Or.inr ⟨p, rfl, hgt, h1, h2⟩

theorem specInv_fold (score : M → List Frame → List ℕ → Option ℚ)
    (X : List Frame) (lengths : List ℕ) :
    ∀ (models : List (String × M)) (c : ℚ × List (String × Option ℚ) × String)
      (o : Option (ℚ × String)), specInv c o →
    specInv (models.foldl (recognizeStep score X lengths) c)
      ((scoreMap score models X lengths).foldl specStep o) := by
  intro models
  induction models with
  | nil => intro c o h; simpa [scoreMap] using h
  | cons wm ms ih =>
    intro c o h
    rw [List.foldl_cons]
    have hstep := specInv_step score X lengths c o wm h
    have := ih _ _ hstep
    simpa [scoreMap] using this

theorem specFold_mono : ∀ (entries : List (String × Option ℚ)) (q : ℚ × String),
    ∃ p, entries.foldl specStep (some q) = some p ∧ q.1 ≤ p.1 := by
  intro entries
  induction entries with
  | nil => intro q; exact ⟨q, rfl, le_refl _⟩
  | cons e es ih =>
    intro q
    rw [List.foldl_cons]
    cases he : e.2 with
    | none => simpa [specStep, he] using ih q
    | some v =>
      by_cases hc : q.1 < v
      · obtain ⟨p, hp, hle⟩ := ih (v, e.1)
        refine ⟨p, ?_, le_trans (le_of_lt hc) hle⟩
        simpa [specStep, he, hc] using hp
      · obtain ⟨p, hp, hle⟩ := ih q
        refine ⟨p, ?_, hle⟩
        simpa [specStep, he, hc] using hp

theorem specFold_ge :
    ∀ (entries : List (String × Option ℚ)) (w : String) (v : ℚ),
    (w, some v) ∈ entries →
    ∀ o, ∃ p, entries.foldl specStep o = some p ∧ v ≤ p.1 := by
  intro entries
  induction entries with
  | nil => intro w v h; simp at h
  | cons e es ih =>
    intro w v hmem o
    rw [List.foldl_cons]
    rcases List.mem_cons.mp hmem with he | he
    · have h2 : e.2 = some v := by rw [← he]
      have hstep : ∃ q : ℚ × String, specStep o e = some q ∧ v ≤ q.1 := by
        cases o with
        | none => exact ⟨(v, e.1), by simp [specStep, h2], le_refl v⟩
        | some q0 =>
          by_cases hc : q0.1 < v
          · exact ⟨(v, e.1), by simp [specStep, h2, hc], le_refl v⟩
          · exact ⟨q0, by simp [specStep, h2, hc], le_of_not_lt hc⟩
      obtain ⟨q, hq, hvq⟩ := hstep
      rw [hq]
      obtain ⟨p, hp, hqp⟩ := specFold_mono es q
      exact ⟨p, hp, le_trans hvq hqp⟩
    · exact ih w v he (specStep o e)

theorem SelectorCV_select_ok (s : Selector M)
    (h2 : ¬ min s.lengths.length 4 < 2)
    (hs : ¬ (s.min_n_components ≤ s.max_n_components ∧
      s.sequences.length < min s.lengths.length 4)) :
    SelectorCV.select s
      = .ok (match pyMax (cvSweep s) with
             | none => none
             | some best => s.fitCvFinal (cvFinalFitConfig best.2) s.X s.lengths) := by
  unfold SelectorCV.select
  rw [if_neg h2, if_neg hs]

theorem bicCandidate_order {s : Selector M} {n : ℕ} {p : ℚ × ℕ}
    (h : bicCandidate s n = some p) : p.2 = n := by
  unfold bicCandidate at h
  cases hf : s.fitBicSweep (bicSweepFitConfig n) s.X s.lengths with
  | none => simp only [hf] at h; exact Option.noConfusion h
  | some model =>
    simp only [hf] at h
    cases hsc : s.score model s.X s.lengths with
    | none => simp only [hsc] at h; exact Option.noConfusion h
    | some logL =>
      simp only [hsc, Option.some.injEq] at h
      rw [← h]

theorem selectorRange_bounds {s : Selector M} {n : ℕ}
    (h : n ∈ selectorRange s) :
    s.min_n_components ≤ n ∧ n ≤ s.max_n_components := by
  unfold selectorRange at h
  rw [List.mem_range'_1] at h
  omega

theorem bicSweep_order_mem {s : Selector M} {p : ℚ × ℕ} (hp : p ∈ bicSweep s) :
    p.2 ∈ selectorRange s := by
  unfold bicSweep at hp
  rcases List.mem_filterMap.mp hp with ⟨n, hn, hcand⟩
  rw [bicCandidate_order hcand]
  exact hn

theorem cvSweep_order_mem {s : Selector M} {p : ℚ × ℕ} (hp : p ∈ cvSweep s) :
    p.2 ∈ selectorRange s := by
  simp only [cvSweep] at hp
  rcases List.mem_filterMap.mp hp with ⟨i, hi, hcand⟩
  by_cases hc : (cvCandidateScores s
      (cvFolds s.sequences.length (min s.lengths.length 4)) i).isEmpty
  · rw [if_pos hc] at hcand; cases hcand
  · rw [if_neg hc] at hcand; cases hcand; exact hi

theorem recognize_fold_eq (score : M → List Frame → List ℕ → Option ℚ)
    (models : List (String × M)) :
    ∀ (ts : List (List Frame × List ℕ))
      (acc : List (List (String × Option ℚ)) × List String),
    ts.foldl (fun acc t =>
        let r := recognizeOne score models t.1 t.2
        (acc.1 ++ [r.1], acc.2 ++ [r.2])) acc
      = (acc.1 ++ ts.map (fun t => (recognizeOne score models t.1 t.2).1),
         acc.2 ++ ts.map (fun t => (recognizeOne score models t.1 t.2).2)) := by
  intro ts
  induction ts with
  | nil => intro acc; simp
  | cons t ts ih =>
    intro acc
    rw [List.foldl_cons, ih]
    simp [List.append_assoc]

theorem SelectorCV_select_err1 (s : Selector M)
    (h2 : min s.lengths.length 4 < 2) :
    SelectorCV.select s = .error "ValueError" := by
  unfold SelectorCV.select
  rw [if_pos h2]

theorem SelectorCV_select_err2 (s : Selector M)
    (h2 : ¬ min s.lengths.length 4 < 2)
    (hs : s.min_n_components ≤ s.max_n_components ∧
      s.sequences.length < min s.lengths.length 4) :
    SelectorCV.select s = .error "ValueError" := by
  unfold SelectorCV.select
  rw [if_neg h2, if_pos hs]

theorem bicWSel_sweep : bicSweep bicWSel = [((8 : ℚ), 2)] := by
  have h : bicSweep bicWSel = [((-2 : ℚ) * -2 + 2 * 2, 2)] := rfl
  rw [h]
  norm_num

theorem bicPermSel_sweep :
    bicSweep bicPermSel = [((8 : ℚ), 2), ((12 : ℚ), 3)] := by
  have h : bicSweep bicPermSel
      = [((-2 : ℚ) * -2 + 2 * 2, 2), ((-2 : ℚ) * -3 + 3 * 2, 3)] := rfl
  rw [h]
  norm_num

theorem refitFailSel_bicSweep : bicSweep refitFailSel = [((-2 : ℚ), 2)] := by
  have h : bicSweep refitFailSel = [((-2 : ℚ) * 1 + 2 * 0, 2)] := rfl
  rw [h]
  norm_num

theorem refitFailSel_cvSweep : cvSweep refitFailSel = [((1 : ℚ), 2)] := by
  have h : cvSweep refitFailSel = [(npMean [1, 1], 2)] := rfl
  have hm : npMean [(1 : ℚ), 1] = 1 := by
    norm_num [npMean, List.sum_cons, List.sum_nil]
  rw [h, hm]

/-- C4 (amended): every sweep fit and every final refit of `SelectorBIC` and
`SelectorCV` constructs the HMM with `n_iter=1000` and the library-default
diagonal covariance, but does not pass the configured random seed: its
`random_state` stays at the default `None`.  Only `base_model` (used by
`SelectorConstant`) passes `covariance_type="diag"` and the configured seed
explicitly. -/
theorem fit_configs (n rs ns : ℕ) :
    bicSweepFitConfig n
      = { n_components := n, covariance_type := "diag", n_iter := 1000,
          random_state := none } ∧
    cvSweepFitConfig n = bicSweepFitConfig n ∧
    bicFinalFitConfig n = bicSweepFitConfig n ∧
    cvFinalFitConfig n = bicSweepFitConfig n ∧
    baseModelConfig rs ns
      = { n_components := ns, covariance_type := "diag", n_iter := 1000,
          random_state := some rs } :=
  ⟨rfl, rfl, rfl, rfl, rfl⟩

/-- C4 counterexample: the BIC and CV sweep fits are constructed without
`random_state`, so under the default configured seed 14 their constructor
configuration carries no seed at all, unlike `base_model`'s. -/
theorem sweep_fit_no_seed_counterexample :
    (bicSweepFitConfig 3).random_state = none ∧
    (cvSweepFitConfig 3).random_state = none ∧
    (bicSweepFitConfig 3).random_state ≠ some 14 ∧
    bicSweepFitConfig 3 ≠ baseModelConfig 14 3 := by
  exact ⟨rfl, rfl, by decide, by decide⟩

/-- C5: every candidate the `SelectorBIC` sweep records for an order `n`
carries the criterion value `-2 * logL + n * log(N)`, where `logL` is the
log-likelihood of the class's full training set under the sweep-fitted model
and `N = len(self.lengths)` is the number of training sequences (not the
number of observation frames), the free-parameter count being approximated by
`n` itself. -/
theorem bic_formula (s : Selector M) (p : ℚ × ℕ) (hp : p ∈ bicSweep s) :
    ∃ model logL,
      s.fitBicSweep (bicSweepFitConfig p.2) s.X s.lengths = some model ∧
      s.score model s.X s.lengths = some logL ∧
      p.1 = -2 * logL + (p.2 : ℚ) * s.log s.lengths.length := by
  unfold bicSweep at hp
  rcases List.mem_filterMap.mp hp with ⟨n, hn, hcand⟩
  unfold bicCandidate at hcand
  cases hf : s.fitBicSweep (bicSweepFitConfig n) s.X s.lengths with
  | none => simp only [hf] at hcand; exact Option.noConfusion hcand
  | some model =>
    simp only [hf] at hcand
    cases hsc : s.score model s.X s.lengths with
    | none => simp only [hsc] at hcand; exact Option.noConfusion hcand
    | some logL =>
      simp only [hsc, Option.some.injEq] at hcand
      refine ⟨model, logL, ?_, ?_, ?_⟩
      · rw [← hcand]; exact hf
      · exact hsc
      · rw [← hcand]

/-- C5 witness: in `bicWSel` (2 sequences, 5 frames, identity logarithm) the
single recorded candidate is `(8, 2)`, and the theorem recovers the formula
`8 = -2 * (-2) + 2 * log 2` with `log` applied to the sequence count 2. -/
theorem bic_formula_witness :
    ∃ model logL,
      bicWSel.fitBicSweep (bicSweepFitConfig ((8 : ℚ), 2).2) bicWSel.X
        bicWSel.lengths = some model ∧
      bicWSel.score model bicWSel.X bicWSel.lengths = some logL ∧
      ((8 : ℚ), 2).1 = -2 * logL
        + ((((8 : ℚ), 2).2 : ℕ) : ℚ) * bicWSel.log bicWSel.lengths.length :=
  bic_formula bicWSel ((8 : ℚ), 2) (by rw [bicWSel_sweep]; exact List.mem_singleton.mpr rfl)

/-- C6: SelectorBIC's choice is invariant under any permutation of the
recorded sweep list (Python's `min` picks the same pair), it always selects
the minimum recorded BIC value, and among candidates sharing the exact
minimum it selects the smallest order. -/
theorem bic_perm_invariant (s : Selector M) (l' : List (ℚ × ℕ))
    (hperm : (bicSweep s).Perm l') :
    bicChoose s l' = bicChoose s (bicSweep s) ∧
    pyMin l' = pyMin (bicSweep s) ∧
    ∀ p, pyMin (bicSweep s) = some p → p ∈ bicSweep s ∧
      ∀ q ∈ bicSweep s, p.1 ≤ q.1 ∧ (q.1 = p.1 → p.2 ≤ q.2) := by
  have hmin : pyMin l' = pyMin (bicSweep s) := (pyMin_perm hperm).symm
  refine ⟨by unfold bicChoose; rw [hmin], hmin, ?_⟩
  intro p hp
  refine ⟨pyMin_mem hp, ?_⟩
  intro q hq
  have hnot := pyMin_notLt hp q hq
  constructor
  · exact le_of_not_lt fun hlt => hnot (Or.inl hlt)
  · intro he
    by_contra hlt
    exact hnot (Or.inr ⟨he, lt_of_not_le hlt⟩)

/-- C6 witness: in `bicPermSel` the sweep records `[(8, 2), (12, 3)]`;
reversing it leaves the choice unchanged, and the chosen pair `(8, 2)` is the
minimum. -/
theorem bic_perm_invariant_witness :
    bicChoose bicPermSel [((12 : ℚ), 3), ((8 : ℚ), 2)]
      = bicChoose bicPermSel (bicSweep bicPermSel) ∧
    pyMin [((12 : ℚ), 3), ((8 : ℚ), 2)] = pyMin (bicSweep bicPermSel) ∧
    ∀ p, pyMin (bicSweep bicPermSel) = some p → p ∈ bicSweep bicPermSel ∧
      ∀ q ∈ bicSweep bicPermSel, p.1 ≤ q.1 ∧ (q.1 = p.1 → p.2 ≤ q.2) :=
  bic_perm_invariant bicPermSel [((12 : ℚ), 3), ((8 : ℚ), 2)]
    (by rw [bicPermSel_sweep]; decide)

/-- C8: the BIC and CV strategies fit and score candidate orders only inside
`[min_n_components, max_n_components]` (both the visited order list and every
recorded candidate stay in range), and whenever `select()` returns a model it
is the final refit of an order inside that range. -/
theorem select_range_invariant (s : Selector M) :
    (∀ n ∈ selectorRange s, s.min_n_components ≤ n ∧ n ≤ s.max_n_components) ∧
    (∀ p ∈ bicSweep s, s.min_n_components ≤ p.2 ∧ p.2 ≤ s.max_n_components) ∧
    (∀ p ∈ cvSweep s, s.min_n_components ≤ p.2 ∧ p.2 ≤ s.max_n_components) ∧
    (∀ m : M, SelectorBIC.select s = .ok (some m) →
      ∃ n, s.min_n_components ≤ n ∧ n ≤ s.max_n_components ∧
        s.fitBicFinal (bicFinalFitConfig n) s.X s.lengths = some m) ∧
    (∀ m : M, SelectorCV.select s = .ok (some m) →
      ∃ n, s.min_n_components ≤ n ∧ n ≤ s.max_n_components ∧
        s.fitCvFinal (cvFinalFitConfig n) s.X s.lengths = some m) := by
  refine ⟨fun n hn => selectorRange_bounds hn,
    fun p hp => selectorRange_bounds (bicSweep_order_mem hp),
    fun p hp => selectorRange_bounds (cvSweep_order_mem hp), ?_, ?_⟩
  · intro m hm
    unfold SelectorBIC.select bicChoose at hm
    cases hmin : pyMin (bicSweep s) with
    | none =>
      simp only [hmin] at hm
      exact Option.noConfusion (Except.ok.inj hm)
    | some best =>
      simp only [hmin, Except.ok.injEq] at hm
      obtain ⟨h1, h2⟩ := selectorRange_bounds (bicSweep_order_mem (pyMin_mem hmin))
      exact ⟨best.2, h1, h2, hm⟩
  · intro m hm
    by_cases h2 : min s.lengths.length 4 < 2
    · rw [SelectorCV_select_err1 s h2] at hm
      exact Except.noConfusion hm
    by_cases hs2 : s.min_n_components ≤ s.max_n_components ∧
      s.sequences.length < min s.lengths.length 4
    · rw [SelectorCV_select_err2 s h2 hs2] at hm
      exact Except.noConfusion hm
    rw [SelectorCV_select_ok s h2 hs2] at hm
    cases hmax : pyMax (cvSweep s) with
    | none =>
      simp only [hmax] at hm
      exact Option.noConfusion (Except.ok.inj hm)
    | some best =>
      simp only [hmax, Except.ok.injEq] at hm
      obtain ⟨h1', h2'⟩ := selectorRange_bounds (cvSweep_order_mem (pyMax_mem hmax))
      exact ⟨best.2, h1', h2', hm⟩

/-- C8 witness: `bicWSel` has range `[2, 2]`, its BIC selection returns the
refitted model 2, and the theorem locates it at an order inside the range. -/
theorem select_range_invariant_witness :
    ∃ n, bicWSel.min_n_components ≤ n ∧ n ≤ bicWSel.max_n_components ∧
      bicWSel.fitBicFinal (bicFinalFitConfig n) bicWSel.X bicWSel.lengths
        = some 2 :=
  (select_range_invariant bicWSel).2.2.2.1 2 (by rfl)

/-- C10: even with a successfully scored sweep, a failing final refit of the
winning order makes `SelectorBIC.select` (resp. `SelectorCV.select`) return
the no-viable-candidate outcome `None` instead of any model fitted during the
sweep. -/
theorem refit_failure_no_model (s : Selector M) (p : ℚ × ℕ) :
    (pyMin (bicSweep s) = some p →
      s.fitBicFinal (bicFinalFitConfig p.2) s.X s.lengths = none →
      SelectorBIC.select s = .ok none) ∧
    (¬ min s.lengths.length 4 < 2 →
      ¬ (s.min_n_components ≤ s.max_n_components ∧
        s.sequences.length < min s.lengths.length 4) →
      pyMax (cvSweep s) = some p →
      s.fitCvFinal (cvFinalFitConfig p.2) s.X s.lengths = none →
      SelectorCV.select s = .ok none) := by
  constructor
  · intro hmin hfit
    unfold SelectorBIC.select bicChoose
    rw [hmin]
    exact congrArg Except.ok hfit
  · intro h2 hs hmax hfit
    rw [SelectorCV_select_ok s h2 hs, hmax]
    exact congrArg Except.ok hfit

/-- C10 witness: in `refitFailSel` both sweeps record a candidate for order 2
but both final refits fail, and both selectors return `None`. -/
theorem refit_failure_no_model_witness :
    SelectorBIC.select refitFailSel = .ok none ∧
    SelectorCV.select refitFailSel = .ok none := by
  constructor
  · exact (refit_failure_no_model refitFailSel ((-2 : ℚ), 2)).1
      (by rw [refitFailSel_bicSweep]; rfl) rfl
  · exact (refit_failure_no_model refitFailSel ((1 : ℚ), 2)).2 (by decide)
      (by decide) (by rw [refitFailSel_cvSweep]; rfl) rfl

theorem cvTieSel_sweep : cvSweep cvTieSel = [((0 : ℚ), 2), ((0 : ℚ), 3)] := by
  have h : cvSweep cvTieSel = [(npMean [0, 0], 2), (npMean [0, 0], 3)] := rfl
  have hm : npMean [(0 : ℚ), 0] = 0 := by
    norm_num [npMean, List.sum_cons, List.sum_nil]
  rw [h, hm]

/-- C1 counterexample: in `cvTieSel`, orders 2 and 3 tie at the exact maximum
mean cross-validated log-likelihood (both 0), yet `SelectorCV.select` refits
and returns order 3 (its final-fit oracle returns the refitted order), not
the smallest tied order 2 as the claim requires. -/
theorem cv_tie_counterexample :
    cvSweep cvTieSel = [((0 : ℚ), 2), ((0 : ℚ), 3)] ∧
    SelectorCV.select cvTieSel = .ok (some 3) ∧
    SelectorCV.select cvTieSel ≠ .ok (some 2) := by
  have hsel : SelectorCV.select cvTieSel = .ok (some 3) := by
    rw [SelectorCV_select_ok cvTieSel (by decide) (by decide), cvTieSel_sweep]
    rfl
  refine ⟨cvTieSel_sweep, hsel, ?_⟩
  rw [hsel]
  intro hcontr
  exact absurd (Option.some.inj (Except.ok.inj hcontr)) (by decide)

/-- C1 (amended): when the guards hold and at least one candidate was
recorded, `SelectorCV.select` returns the final refit of a recorded candidate
whose mean cross-validated log-likelihood is the exact maximum; among
candidates sharing that maximum it picks the largest order (the last
occurrence in the ascending sweep), not the smallest. -/
theorem cv_select_max_mean (s : Selector M)
    (h2 : ¬ min s.lengths.length 4 < 2)
    (hs : ¬ (s.min_n_components ≤ s.max_n_components ∧
      s.sequences.length < min s.lengths.length 4))
    (hne : cvSweep s ≠ []) :
    ∃ p, pyMax (cvSweep s) = some p ∧ p ∈ cvSweep s ∧
      (∀ q ∈ cvSweep s, q.1 ≤ p.1 ∧ (q.1 = p.1 → q.2 ≤ p.2)) ∧
      SelectorCV.select s
        = .ok (s.fitCvFinal (cvFinalFitConfig p.2) s.X s.lengths) := by
  obtain ⟨p, hp⟩ := pyMax_isSome hne
  refine ⟨p, hp, pyMax_mem hp, ?_, ?_⟩
  · intro q hq
    have hnot := pyMax_notLt hp q hq
    constructor
    · exact le_of_not_lt fun hlt => hnot (Or.inl hlt)
    · intro he
      by_contra hlt
      exact hnot (Or.inr ⟨he.symm, lt_of_not_le hlt⟩)
  · rw [SelectorCV_select_ok s h2 hs, hp]

/-- C1 witness: applying the amended selection rule to `cvTieSel` yields the
maximal pair, here `(0, 3)`. -/
theorem cv_select_max_mean_witness :
    ∃ p, pyMax (cvSweep cvTieSel) = some p ∧ p ∈ cvSweep cvTieSel ∧
      (∀ q ∈ cvSweep cvTieSel, q.1 ≤ p.1 ∧ (q.1 = p.1 → q.2 ≤ p.2)) ∧
      SelectorCV.select cvTieSel
        = .ok (cvTieSel.fitCvFinal (cvFinalFitConfig p.2) cvTieSel.X
            cvTieSel.lengths) :=
  cv_select_max_mean cvTieSel (by decide) (by decide)
    (by rw [cvTieSel_sweep]; exact List.cons_ne_nil _ _)

/-- C2 counterexample: for a class with a single training sequence,
`SelectorCV.select` raises `ValueError` (the `KFold` constructor runs outside
every `try`), instead of returning the no-viable-candidate outcome `None`. -/
theorem cv_one_sequence_raises :
    SelectorCV.select cvOneSeqSel = .error "ValueError" ∧
    SelectorCV.select cvOneSeqSel ≠ .ok none := by
  have h : SelectorCV.select cvOneSeqSel = .error "ValueError" :=
    SelectorCV_select_err1 cvOneSeqSel (by decide)
  refine ⟨h, ?_⟩
  rw [h]
  intro hcontr
  exact Except.noConfusion hcontr

/-- C2 (amended): `SelectorConstant.select` and `SelectorBIC.select` never
raise (every failure is captured into the returned option), and outside its
two `KFold` guard conditions neither does `SelectorCV.select`; but
`SelectorDIC.select` always raises `NotImplementedError`, and for a class with
fewer than 2 training sequences `SelectorCV.select` raises `ValueError`
rather than returning the no-viable outcome. -/
theorem select_exception_behavior :
    (∀ s : Selector M, ∃ o, SelectorConstant.select s = .ok o) ∧
    (∀ s : Selector M, ∃ o, SelectorBIC.select s = .ok o) ∧
    (∀ s : Selector M, SelectorDIC.select s = .error "NotImplementedError") ∧
    (∀ s : Selector M, s.lengths.length < 2 →
      SelectorCV.select s = .error "ValueError") ∧
    (∀ s : Selector M, ¬ min s.lengths.length 4 < 2 →
      ¬ (s.min_n_components ≤ s.max_n_components ∧
        s.sequences.length < min s.lengths.length 4) →
      ∃ o, SelectorCV.select s = .ok o) := by
  refine ⟨fun s => ⟨_, rfl⟩, fun s => ⟨_, rfl⟩, fun s => rfl, ?_, ?_⟩
  · intro s h
    exact SelectorCV_select_err1 s (lt_of_le_of_lt (min_le_left _ _) h)
  · intro s h2 hs
    exact ⟨_, SelectorCV_select_ok s h2 hs⟩

/-- C2 witness: the exception behavior instantiated at concrete selectors:
both no-raise strategies return `.ok` on `cvOkSel`, DIC raises, CV raises on
the one-sequence class and returns `.ok` on the two-sequence class. -/
theorem select_exception_behavior_witness :
    (∃ o, SelectorConstant.select cvOkSel = .ok o) ∧
    (∃ o, SelectorBIC.select cvOkSel = .ok o) ∧
    SelectorDIC.select cvOkSel = .error "NotImplementedError" ∧
    SelectorCV.select cvOneSeqSel = .error "ValueError" ∧
    ∃ o, SelectorCV.select cvOkSel = .ok o :=
  ⟨(@select_exception_behavior ℕ).1 cvOkSel,
   (@select_exception_behavior ℕ).2.1 cvOkSel,
   (@select_exception_behavior ℕ).2.2.1 cvOkSel,
   (@select_exception_behavior ℕ).2.2.2.1 cvOneSeqSel (by decide),
   (@select_exception_behavior ℕ).2.2.2.2 cvOkSel (by decide) (by decide)⟩

/-- C3 counterexample: with a single class model scoring strictly below the
sentinel `-10 ** 10 = -10000000000`, the spec's arg-max over scorable entries
is class "A", but the recognizer (whose running maximum starts at the
sentinel, not at negative infinity) emits the empty string. -/
theorem recognize_sentinel_counterexample :
    scoreMap recScoreLow [("A", 0)] [[1]] [1]
      = [("A", some (-10000000001))] ∧
    specBestGuess (scoreMap recScoreLow [("A", 0)] [[1]] [1]) = "A" ∧
    (recognizeOne recScoreLow [("A", 0)] [[1]] [1]).2 = "" ∧
    (recognizeOne recScoreLow [("A", 0)] [[1]] [1]).2
      ≠ specBestGuess (scoreMap recScoreLow [("A", 0)] [[1]] [1]) := by
  exact ⟨rfl, rfl, rfl, by decide⟩

/-- C3 (amended): the recognizer's running maximum starts at the finite
sentinel `-10 ** 10`, not negative infinity; whenever some scorable entry of
an instance's score map exceeds the sentinel, the emitted best guess equals
the spec's arg-max label (the first label attaining the maximum among
scorable entries); scores at or below the sentinel can leave the guess
empty. -/
theorem recognize_argmax (score : M → List Frame → List ℕ → Option ℚ)
    (models : List (String × M)) (X : List Frame) (lengths : List ℕ)
    (w : String) (v : ℚ)
    (hmem : (w, some v) ∈ scoreMap score models X lengths)
    (hv : (-10000000000 : ℚ) < v) :
    (recognizeOne score models X lengths).2
      = specBestGuess (scoreMap score models X lengths) := by
  have hInv := specInv_fold score X lengths models (-10000000000, ([], "")) none
    (Or.inl ⟨rfl, rfl, fun p hp => Option.noConfusion hp⟩)
  obtain ⟨pm, hpm, hvp⟩ :=
    specFold_ge (scoreMap score models X lengths) w v hmem none
  have hgt : (-10000000000 : ℚ) < pm.1 := lt_of_lt_of_le hv hvp
  rcases hInv with ⟨h1, h2, h3⟩ | ⟨p, hp, hgt', hc1, hc2⟩
  · exact absurd (h3 pm hpm) (not_le_of_lt hgt)
  · simp only [specBestGuess, specBest, hp]
    exact hc2

/-- C3 witness: two models scoring 1 and 2, both above the sentinel; the
emitted guess coincides with the spec's arg-max label. -/
theorem recognize_argmax_witness :
    (recognizeOne recScoreId [("A", 1), ("B", 2)] [[1]] [1]).2
      = specBestGuess (scoreMap recScoreId [("A", 1), ("B", 2)] [[1]] [1]) :=
  recognize_argmax recScoreId [("A", 1), ("B", 2)] [[1]] [1] "B" 2
    (by decide) (by decide)

/-- C7: each test instance contributes exactly one score map (one entry per
class model, in iteration order, with `None` marking a failed scoring call)
and one guess to the index-aligned output lists, and the guess is computed
from the numeric entries alone: failed entries are excluded from arg-max
consideration and never abort the scoring of the remaining models. -/
theorem recognize_failure_isolation
    (score : M → List Frame → List ℕ → Option ℚ)
    (models : List (String × M)) (test_set : List (List Frame × List ℕ)) :
    (recognize score models test_set).1
      = test_set.map (fun t => scoreMap score models t.1 t.2) ∧
    (recognize score models test_set).2
      = test_set.map (fun t => (recognizeOne score models t.1 t.2).2) ∧
    (∀ X lengths, (recognizeOne score models X lengths).1
      = scoreMap score models X lengths) ∧
    (∀ X lengths, ∀ wm ∈ models,
      (wm.1, score wm.2 X lengths) ∈ scoreMap score models X lengths) ∧
    (∀ X lengths, (recognizeOne score models X lengths).2
      = (argmaxFold (numericEntries (scoreMap score models X lengths))).2) := by
  have hone : ∀ X lengths, (recognizeOne score models X lengths).1
      = scoreMap score models X lengths := by
    intro X lengths
    show (models.foldl (recognizeStep score X lengths)
        (-10000000000, ([], ""))).2.1 = _
    rw [recognizeFold_dict score X lengths models]
    simp
  have hrec : recognize score models test_set
      = (test_set.map (fun t => (recognizeOne score models t.1 t.2).1),
         test_set.map (fun t => (recognizeOne score models t.1 t.2).2)) := by
    unfold recognize
    rw [recognize_fold_eq score models test_set ([], [])]
    simp
  refine ⟨?_, ?_, hone, ?_, ?_⟩
  · rw [hrec]
    simp only [hone]
  · rw [hrec]
  · intro X lengths wm hwm
    unfold scoreMap
    exact List.mem_map_of_mem _ hwm
  · intro X lengths
    have h := recognizeFold_argmax score X lengths models (-10000000000) [] ""
    exact congrArg Prod.snd h

/-- C7 witness: two models where scoring fails on "A" and succeeds with 5 on
"B"; the score map is emitted for the instance, carries the `None` marker for
"A", and the guess is computed from the numeric entries alone. -/
theorem recognize_failure_isolation_witness :
    (recognize recScoreMixed [("A", 0), ("B", 1)] [([[1]], [1])]).1
      = [scoreMap recScoreMixed [("A", 0), ("B", 1)] [[1]] [1]] ∧
    ("A", (none : Option ℚ))
      ∈ scoreMap recScoreMixed [("A", 0), ("B", 1)] [[1]] [1] ∧
    (recognizeOne recScoreMixed [("A", 0), ("B", 1)] [[1]] [1]).2
      = (argmaxFold (numericEntries
          (scoreMap recScoreMixed [("A", 0), ("B", 1)] [[1]] [1]))).2 := by
  have h := recognize_failure_isolation recScoreMixed [("A", 0), ("B", 1)]
    [([[1]], [1])]
  refine ⟨?_, ?_, h.2.2.2.2 [[1]] [1]⟩
  · rw [h.1]
    rfl
  · have hmem := h.2.2.2.1 [[1]] [1] ("A", 0) (by decide)
    simpa [recScoreMixed] using hmem

/-- C9 counterexample: two class models produce numerically identical maximum
log-likelihoods equal to the sentinel `-10 ** 10`; the emitted guess is the
empty string, not the first-iterated class "A". -/
theorem recognize_tie_sentinel_counterexample :
    scoreMap recScoreSentinel [("A", 0), ("B", 1)] [[1]] [1]
      = [("A", some (-10000000000)), ("B", some (-10000000000))] ∧
    (recognizeOne recScoreSentinel [("A", 0), ("B", 1)] [[1]] [1]).2 = "" ∧
    (recognizeOne recScoreSentinel [("A", 0), ("B", 1)] [[1]] [1]).2 ≠ "A" := by
  exact ⟨rfl, rfl, by decide⟩

/-- C9 (amended): the best guess is updated only by a strictly greater score:
appending a model whose score does not exceed the running maximum (in
particular, one tying the current maximum) leaves the guess unchanged, and
appending one with a strictly greater score replaces the guess; hence among
models tying at a maximum above the sentinel the first-iterated class wins. -/
theorem recognize_strict_update (score : M → List Frame → List ℕ → Option ℚ)
    (models : List (String × M)) (X : List Frame) (lengths : List ℕ)
    (w : String) (m : M) (v : ℚ) (h : score m X lengths = some v) :
    (v ≤ (models.foldl (recognizeStep score X lengths)
        (-10000000000, ([], ""))).1 →
      (recognizeOne score (models ++ [(w, m)]) X lengths).2
        = (recognizeOne score models X lengths).2) ∧
    ((models.foldl (recognizeStep score X lengths)
        (-10000000000, ([], ""))).1 < v →
      (recognizeOne score (models ++ [(w, m)]) X lengths).2 = w) := by
  constructor
  · intro hle
    show ((models ++ [(w, m)]).foldl (recognizeStep score X lengths)
        (-10000000000, ([], ""))).2.2
      = (models.foldl (recognizeStep score X lengths)
          (-10000000000, ([], ""))).2.2
    rw [List.foldl_append, List.foldl_cons, List.foldl_nil]
    simp only [recognizeStep, h]
    rw [if_neg (not_lt_of_le hle)]
  · intro hlt
    show ((models ++ [(w, m)]).foldl (recognizeStep score X lengths)
        (-10000000000, ([], ""))).2.2 = w
    rw [List.foldl_append, List.foldl_cons, List.foldl_nil]
    simp only [recognizeStep, h]
    rw [if_pos hlt]

/-- C9 witness: a later model tying the running maximum 5 does not change the
guess, while a later model scoring 7 takes it over. -/
theorem recognize_strict_update_witness :
    (recognizeOne recScoreId ([("A", (5 : ℕ))] ++ [("B", 5)]) [[1]] [1]).2
      = (recognizeOne recScoreId [("A", (5 : ℕ))] [[1]] [1]).2 ∧
    (recognizeOne recScoreId ([("A", (5 : ℕ))] ++ [("C", 7)]) [[1]] [1]).2
      = "C" := by
  constructor
  · exact (recognize_strict_update recScoreId [("A", 5)] [[1]] [1] "B" 5 5
      rfl).1 (by decide)
  · exact (recognize_strict_update recScoreId [("A", 5)] [[1]] [1] "C" 7 7
      rfl).2 (by decide)
